import Mathlib

/-!
Shallow embedding of the CQL service processor-pool dispatcher
(`src/yb/cqlserver/cql_service.cc`) and proofs about it.

The shared mutable state is the pool `processors_` (a `std::vector` of
`unique_ptr<CQLProcessor>`); the only observable attribute of a processor
that the dispatcher touches is its busy flag (`is_used` / `used()` /
`unused()`), so a processor is modelled as that `Bool` flag, and the
vector as a `List Bool` together with its capacity (a `Nat`).
Timestamps (`MonoTime::Now`) are modelled as `Nat` parameters supplied to
`Handle`; histogram `Increment` calls append the sample to a list.
-/

namespace CQLService

/-- State of the `processors_` vector: the busy flags of the processors it
holds, in order, plus the backing capacity (`std::vector::capacity`). -/
structure PoolState where
  processors : List Bool
  capacity : Nat
deriving DecidableEq, Repr

/-- Model of `std::vector::reserve cap n`: capacity becomes at least `n`
and never shrinks. -/
def vreserve (cap n : Nat) : Nat := max cap n

/-- Capacity after `emplace_back` on a vector with capacity `cap` and
`len` elements: unchanged when there is room, otherwise grown to fit the
new element (the exact growth factor is implementation defined; in
`GetProcessor` the preceding `reserve` always leaves room, so only the
lower bound matters). -/
def vpushCap (cap len : Nat) : Nat := max cap (len + 1)

/-- The scan loop of `CQLServiceImpl::GetProcessor`, carrying the running
index and the candidate found so far:
`for (processor : processors_) if (!processor->is_used()) cql_processor = processor.get();`
— it does not break at the first idle processor, so the last idle one
survives. -/
def scanLoop : List Bool → Nat → Option Nat → Option Nat
  | [], _, acc => acc
  | flag :: rest, idx, acc => scanLoop rest (idx + 1) (if flag then acc else some idx)

/-- The whole scan, starting from `cql_processor = nullptr`. -/
def scanIdle (ps : List Bool) : Option Nat := scanLoop ps 0 none

/-- `CQLServiceImpl::GetProcessor` (the whole body runs under
`process_mutex_`): scan for an idle processor; if none, create one, call
`reserve(max(size * 2, size + 10))` and `emplace_back`; finally mark the
selected processor used and return it (here: its index). -/
def GetProcessor (s : PoolState) : Nat × PoolState :=
  let sel : Nat × PoolState :=
    match scanIdle s.processors with
    | some i => (i, s)
    | none =>
        let size := s.processors.length
        let cap := vreserve s.capacity (max (size * 2) (size + 10))
        (size, { processors := s.processors ++ [false],
                 capacity := vpushCap cap size })
  (sel.1, { sel.2 with processors := sel.2.processors.set sel.1 true })

/-- `processor->unused()`: clears the busy flag of processor `i`. -/
def Release (s : PoolState) (i : Nat) : PoolState :=
  { s with processors := s.processors.set i false }

/-- The loop body of the constructor `CQLServiceImpl::CQLServiceImpl` over
the current elements of `processors_`: each existing element is reset to a
fresh (idle) processor. -/
def initProcessors (elems : List Bool) : List Bool := elems.map (fun _ => false)

/-- The pool part of `CQLServiceImpl::CQLServiceImpl`: it calls
`processors_.reserve(FLAGS_cql_service_num_threads)` and then range-iterates
over `processors_` resetting each element. `reserve` does not change the
vector's size, so the vector still has zero elements and the loop body never
runs: the constructed pool is empty with capacity `num_threads`. -/
def CQLServiceImpl_init (num_threads : Nat) : PoolState :=
  { processors := initProcessors ([] : List Bool),
    capacity := vreserve 0 num_threads }

/-- A pool command: an `Acquire` (`GetProcessor`) or a `Release`
(`unused()`) of processor `i`. -/
inductive PoolCmd where
  | acquire : PoolCmd
  | release : Nat → PoolCmd
deriving DecidableEq, Repr

/-- Effect of one pool command on the pool state (the index an acquire
returns is dropped here; `GetProcessor` itself reports it). -/
def step (s : PoolState) : PoolCmd → PoolState
  | .acquire => (GetProcessor s).2
  | .release i => Release s i

/-- Run a sequence of pool commands. -/
def exec (s : PoolState) : List PoolCmd → PoolState
  | [] => s
  | c :: cs => exec (step s c) cs

/-- Number of busy processors in the pool. -/
def busyCount (s : PoolState) : Nat := s.processors.count true

/-- A CQL response as the dispatcher sees it: always present (`ProcessCall`
converts internal failures into an error response), possibly encoding an
error. -/
structure CQLResponse where
  isErrorPayload : Bool
deriving DecidableEq, Repr

/-- The four `MonoTime::Now(MonoTime::FINE)` readings taken inside
`CQLServiceImpl::Handle`, in program order: `start`, `got_processor`,
`process_done`, `response_done`. -/
structure HandleTimes where
  start : Nat
  got_processor : Nat
  process_done : Nat
  response_done : Nat
deriving DecidableEq, Repr

/-- The three histograms of `cql_metrics_` that `Handle` increments; each
holds the samples recorded so far. -/
structure CQLMetrics where
  time_to_get_cql_processor : List Nat
  time_to_process_request : List Nat
  time_to_queue_cql_response : List Nat
deriving DecidableEq, Repr

/-- Externally observable actions `Handle` performs, in order. -/
inductive HEvent where
  | processCall : HEvent
  | serializeResponse : Bool → HEvent
  | respondSuccess : HEvent
  | releaseProcessor : Nat → HEvent
deriving DecidableEq, Repr

/-- `CQLServiceImpl::SendResponse`: serializes the response into the
call's buffer (even when the payload encodes an error) and calls
`RespondSuccess()` on a fresh `RpcContext` — exactly once. -/
def SendResponse (response : CQLResponse) : List HEvent :=
  [HEvent.serializeResponse response.isErrorPayload, HEvent.respondSuccess]

/-- `CQLServiceImpl::Handle`: acquire a processor via `GetProcessor`,
record the acquire latency, run `ProcessCall` (its response is the
parameter `response`; the processing itself is external), send the
response, call `processor->unused()`, and record the two remaining
latency samples. Returns the pool state, the metrics and the emitted
event trace; the function returns nothing to its caller in the source
(`void`) and is total here. -/
def Handle (s : PoolState) (m : CQLMetrics) (t : HandleTimes)
    (response : CQLResponse) : PoolState × CQLMetrics × List HEvent :=
  let acq := GetProcessor s
  let m1 := { m with time_to_get_cql_processor :=
      m.time_to_get_cql_processor ++ [t.got_processor - t.start] }
  let evs := [HEvent.processCall] ++ SendResponse response
      ++ [HEvent.releaseProcessor acq.1]
  let s2 := Release acq.2 acq.1
  let m2 := { m1 with
      time_to_process_request :=
        m1.time_to_process_request ++ [t.response_done - t.start],
      time_to_queue_cql_response :=
        m1.time_to_queue_cql_response ++ [t.response_done - t.process_done] }
  (s2, m2, evs)

/-- The kinds of reads/writes of the shared pool state (`processors_` and
the processors' busy flags) that the dispatcher performs. -/
inductive PoolTouch where
  | scanIsUsed : PoolTouch
  | reserveAndAppend : PoolTouch
  | markUsed : PoolTouch
  | markUnused : PoolTouch
deriving DecidableEq, Repr

/-- One access to the shared pool state, tagged with whether the program
point lies inside a scope holding `process_mutex_`. -/
structure PoolStateAccess where
  touch : PoolTouch
  holdsProcessMutex : Bool
deriving DecidableEq, Repr

/-- The pool-state accesses of `CQLServiceImpl::GetProcessor`, in program
order: the whole body runs under `std::lock_guard<std::mutex>
guard(process_mutex_)`, covering the `is_used()` scan, the
`reserve`/`emplace_back` growth, and the `used()` write. -/
def getProcessorAccesses : List PoolStateAccess :=
  [⟨.scanIsUsed, true⟩, ⟨.reserveAndAppend, true⟩, ⟨.markUsed, true⟩]

/-- The pool-state accesses of one `CQLServiceImpl::Handle` invocation:
those of its `GetProcessor` call, followed by `processor->unused()`, which
`Handle` performs with no lock held. -/
def handleAccesses : List PoolStateAccess :=
  getProcessorAccesses ++ [⟨.markUnused, false⟩]

/-! ### Lemmas about the idle-processor scan -/

theorem scanLoop_append (xs ys : List Bool) (idx : Nat) (acc : Option Nat) :
    scanLoop (xs ++ ys) idx acc = scanLoop ys (idx + xs.length) (scanLoop xs idx acc) := by
  induction xs generalizing idx acc with
  | nil => simp [scanLoop]
  | cons b t ih =>
      have h1 : scanLoop ((b :: t) ++ ys) idx acc
          = scanLoop (t ++ ys) (idx + 1) (if b then acc else some idx) := rfl
      have h2 : scanLoop (b :: t) idx acc
          = scanLoop t (idx + 1) (if b then acc else some idx) := rfl
      rw [h1, ih, h2, List.length_cons]
      have harith : idx + 1 + t.length = idx + (t.length + 1) := by omega
      rw [harith]

theorem scanIdle_concat (ps : List Bool) (b : Bool) :
    scanIdle (ps ++ [b]) = if b then scanIdle ps else some ps.length := by
  unfold scanIdle
  rw [scanLoop_append]
  cases b <;> simp [scanLoop]

theorem scanIdle_eq_none_iff (ps : List Bool) :
    scanIdle ps = none ↔ false ∉ ps := by
  induction ps using List.reverseRecOn with
  | nil => simp [scanIdle, scanLoop]
  | append_singleton t b ih =>
      rw [scanIdle_concat]
      cases b <;> simp [ih]

theorem scanIdle_spec (ps : List Bool) (i : Nat) (h : scanIdle ps = some i) :
    ps[i]? = some false ∧ ∀ j, ps[j]? = some false → j ≤ i := by
  induction ps using List.reverseRecOn generalizing i with
  | nil => simp [scanIdle, scanLoop] at h
  | append_singleton t b ih =>
      rw [scanIdle_concat] at h
      cases b with
      | false =>
          rw [if_neg (by decide)] at h
          have hi : i = t.length := (Option.some.inj h).symm
          subst hi
          refine ⟨by simp, ?_⟩
          intro j hj
          have hjlt : j < (t ++ [false]).length := by
            rw [List.getElem?_eq_some] at hj
            exact hj.1
          simp only [List.length_append, List.length_singleton] at hjlt
          omega
      | true =>
          rw [if_pos rfl] at h
          obtain ⟨h1, h2⟩ := ih i h
          have hilt : i < t.length := by
            rw [List.getElem?_eq_some] at h1
            exact h1.1
          refine ⟨by rw [List.getElem?_append_left hilt]; exact h1, ?_⟩
          intro j hj
          by_cases hjl : j < t.length
          · exact h2 j (by rwa [List.getElem?_append_left hjl] at hj)
          · exfalso
            push_neg at hjl
            rw [List.getElem?_append_right hjl] at hj
            rcases hsub : j - t.length with _ | k
            · rw [hsub] at hj
              simp at hj
            · rw [hsub] at hj
              simp at hj

theorem scanIdle_some_lt (ps : List Bool) (i : Nat) (h : scanIdle ps = some i) :
    i < ps.length := by
  have := (scanIdle_spec ps i h).1
  rw [List.getElem?_eq_some] at this
  exact this.1

theorem scanIdle_isSome_of_idle (ps : List Bool) (i : Nat)
    (h : ps[i]? = some false) : ∃ k, scanIdle ps = some k := by
  rcases hscan : scanIdle ps with _ | k
  · exfalso
    have hmem : false ∈ ps := by
      rw [List.getElem?_eq_some] at h
      obtain ⟨hlt, hval⟩ := h
      exact hval ▸ List.getElem_mem hlt
    exact (scanIdle_eq_none_iff ps).mp hscan hmem
  · exact ⟨k, rfl⟩

/-! ### Lemmas about GetProcessor, Release and exec -/

theorem getElem?_set_true_of_true (l : List Bool) (i j : Nat)
    (h : l[i]? = some true) : (l.set j true)[i]? = some true := by
  by_cases hij : i = j
  · subst hij
    have hlt : i < l.length := by
      rw [List.getElem?_eq_some] at h
      exact h.1
    simp [List.getElem?_set_self', hlt]
  · rw [List.getElem?_set_ne (fun he => hij he.symm)]
    exact h

theorem getProcessor_busy_after (s : PoolState) :
    (GetProcessor s).2.processors[(GetProcessor s).1]? = some true := by
  unfold GetProcessor
  rcases hscan : scanIdle s.processors with _ | i
  · simp only [hscan]
    have hlt : s.processors.length < (s.processors ++ [false]).length := by
      simp
    simp [List.getElem?_set_self', hlt]
  · simp only [hscan]
    have hlt : i < s.processors.length := scanIdle_some_lt _ _ hscan
    simp [List.getElem?_set_self', hlt]

theorem getProcessor_idx_lt (s : PoolState) :
    (GetProcessor s).1 < (GetProcessor s).2.processors.length := by
  have h := getProcessor_busy_after s
  rw [List.getElem?_eq_some] at h
  exact h.1

theorem getProcessor_length (s : PoolState) :
    (GetProcessor s).2.processors.length = s.processors.length ∨
    (GetProcessor s).2.processors.length = s.processors.length + 1 := by
  unfold GetProcessor
  rcases hscan : scanIdle s.processors with _ | i
  · right
    simp
  · left
    simp

theorem getProcessor_avoids_busy (s : PoolState) (i : Nat)
    (h : s.processors[i]? = some true) : (GetProcessor s).1 ≠ i := by
  unfold GetProcessor
  rcases hscan : scanIdle s.processors with _ | j
  · simp only [hscan]
    intro he
    have hlt : i < s.processors.length := by
      rw [List.getElem?_eq_some] at h
      exact h.1
    omega
  · simp only [hscan]
    intro he
    subst he
    have := (scanIdle_spec _ _ hscan).1
    rw [h] at this
    simp at this

theorem step_preserves_busy (s : PoolState) (c : PoolCmd) (i : Nat)
    (h : s.processors[i]? = some true) (hc : c ≠ PoolCmd.release i) :
    (step s c).processors[i]? = some true := by
  cases c with
  | acquire =>
      unfold step GetProcessor
      rcases hscan : scanIdle s.processors with _ | j
      · simp only [hscan]
        apply getElem?_set_true_of_true
        have hlt : i < s.processors.length := by
          rw [List.getElem?_eq_some] at h
          exact h.1
        rw [List.getElem?_append_left hlt]
        exact h
      · simp only [hscan]
        exact getElem?_set_true_of_true _ _ _ h
  | release j =>
      have hij : j ≠ i := fun he => hc (by rw [he])
      unfold step Release
      simp only
      rw [List.getElem?_set_ne hij]
      exact h

theorem exec_preserves_busy (cmds : List PoolCmd) (s : PoolState) (i : Nat)
    (h : s.processors[i]? = some true) (hrel : PoolCmd.release i ∉ cmds) :
    (exec s cmds).processors[i]? = some true := by
  induction cmds generalizing s with
  | nil => exact h
  | cons c cs ih =>
      have hc : c ≠ PoolCmd.release i := fun he => hrel (he ▸ List.mem_cons_self c cs)
      have hcs : PoolCmd.release i ∉ cs := fun hm => hrel (List.mem_cons_of_mem c hm)
      exact ih (step s c) (step_preserves_busy s c i h hc) hcs

theorem count_true_set_true (ps : List Bool) (i : Nat) (h : ps[i]? = some false) :
    (ps.set i true).count true = ps.count true + 1 := by
  induction ps generalizing i with
  | nil => simp at h
  | cons b t ih =>
      cases i with
      | zero =>
          have hb : b = false := by simpa using h
          subst hb
          simp [List.count_cons]
      | succ n =>
          have ht : t[n]? = some false := by simpa using h
          simp only [List.set_cons_succ, List.count_cons, ih n ht]
          omega

theorem busyCount_getProcessor (s : PoolState) :
    busyCount (GetProcessor s).2 = busyCount s + 1 := by
  unfold busyCount GetProcessor
  rcases hscan : scanIdle s.processors with _ | i
  · simp only [hscan]
    have h : (s.processors ++ [false])[s.processors.length]? = some false := by simp
    rw [count_true_set_true _ _ h]
    simp [List.count_append]
  · simp only [hscan]
    exact count_true_set_true _ _ (scanIdle_spec _ _ hscan).1

theorem step_length_mono (s : PoolState) (c : PoolCmd) :
    s.processors.length ≤ (step s c).processors.length := by
  cases c with
  | acquire =>
      show s.processors.length ≤ (GetProcessor s).2.processors.length
      rcases getProcessor_length s with h | h <;> omega
  | release i => simp [step, Release]

theorem exec_length_mono (cmds : List PoolCmd) (s : PoolState) :
    s.processors.length ≤ (exec s cmds).processors.length := by
  induction cmds generalizing s with
  | nil => exact Nat.le_refl _
  | cons c cs ih => exact Nat.le_trans (step_length_mono s c) (ih (step s c))

theorem busyCount_replicate_acquire (M : Nat) (s : PoolState) :
    busyCount (exec s (List.replicate M PoolCmd.acquire)) = busyCount s + M := by
  induction M generalizing s with
  | zero => simp [exec]
  | succ n ih =>
      rw [List.replicate_succ]
      have hstep : exec s (PoolCmd.acquire :: List.replicate n PoolCmd.acquire)
          = exec (step s PoolCmd.acquire) (List.replicate n PoolCmd.acquire) := rfl
      rw [hstep, ih]
      have : busyCount (step s PoolCmd.acquire) = busyCount s + 1 :=
        busyCount_getProcessor s
      omega

theorem busyCount_le_length (s : PoolState) :
    busyCount s ≤ s.processors.length := List.count_le_length _ _

/-! ### Claim theorems -/

/-- C1: for every sequence of acquire (`GetProcessor`) and release
(`unused()`) operations, a processor returned by one `GetProcessor` call
is never returned by another `GetProcessor` call while still un-released:
`GetProcessor` marks the selected processor used before returning, and as
long as no release of that processor occurs, no later `GetProcessor`
selects it. -/
theorem getProcessor_mutual_exclusion (s s1 : PoolState) (i : Nat)
    (cmds : List PoolCmd) (hacq : GetProcessor s = (i, s1))
    (hrel : PoolCmd.release i ∉ cmds) :
    (GetProcessor (exec s1 cmds)).1 ≠ i := by
  have hb : s1.processors[i]? = some true := by
    have h := getProcessor_busy_after s
    rw [hacq] at h
    exact h
  exact getProcessor_avoids_busy _ i (exec_preserves_busy cmds s1 i hb hrel)

/-- Witness for C1: acquiring from the empty pool returns processor 0;
after a further acquire with no release of 0, the next acquire does not
return 0. -/
theorem getProcessor_mutual_exclusion_witness :
    GetProcessor ⟨[], 0⟩ = (0, ⟨[true], 10⟩) ∧
    PoolCmd.release 0 ∉ [PoolCmd.acquire] ∧
    (GetProcessor (exec ⟨[true], 10⟩ [PoolCmd.acquire])).1 ≠ 0 :=
  ⟨by decide, by decide,
    getProcessor_mutual_exclusion ⟨[], 0⟩ ⟨[true], 10⟩ 0 [PoolCmd.acquire]
      (by decide) (by decide)⟩

/-- C2: `GetProcessor` always returns without blocking: when some
processor is idle (an idle flag `false` occurs in the pool) it selects an
idle one and the pool size is unchanged; when none is idle it constructs
exactly one new processor, appends it, and returns it marked used. -/
theorem getProcessor_never_blocks (s : PoolState) :
    (false ∈ s.processors →
      s.processors[(GetProcessor s).1]? = some false ∧
      (GetProcessor s).2.processors.length = s.processors.length) ∧
    (false ∉ s.processors →
      (GetProcessor s).1 = s.processors.length ∧
      (GetProcessor s).2.processors.length = s.processors.length + 1 ∧
      (GetProcessor s).2.processors[(GetProcessor s).1]? = some true) := by
  constructor
  · intro hmem
    obtain ⟨n, hn, hval⟩ := List.getElem_of_mem hmem
    have hidx : s.processors[n]? = some false :=
      List.getElem?_eq_some.mpr ⟨hn, hval⟩
    obtain ⟨k, hscan⟩ := scanIdle_isSome_of_idle _ _ hidx
    constructor
    · have h1 := (scanIdle_spec _ _ hscan).1
      unfold GetProcessor
      simp only [hscan]
      exact h1
    · unfold GetProcessor
      simp only [hscan]
      simp
  · intro hmem
    have hscan : scanIdle s.processors = none := (scanIdle_eq_none_iff _).mpr hmem
    refine ⟨?_, ?_, getProcessor_busy_after s⟩
    · unfold GetProcessor
      simp only [hscan]
    · unfold GetProcessor
      simp only [hscan]
      simp

/-- Witness for C2: on the pool `[true, false]` an idle processor exists
and is selected with the size unchanged; on the all-busy pool `[true]` a
new processor is appended and returned used. -/
theorem getProcessor_never_blocks_witness :
    ((⟨[true, false], 5⟩ : PoolState).processors[
        (GetProcessor ⟨[true, false], 5⟩).1]? = some false ∧
      (GetProcessor ⟨[true, false], 5⟩).2.processors.length = 2) ∧
    ((GetProcessor ⟨[true], 5⟩).1 = 1 ∧
      (GetProcessor ⟨[true], 5⟩).2.processors.length = 2 ∧
      (GetProcessor ⟨[true], 5⟩).2.processors[
        (GetProcessor ⟨[true], 5⟩).1]? = some true) :=
  ⟨(getProcessor_never_blocks ⟨[true, false], 5⟩).1 (by decide),
   (getProcessor_never_blocks ⟨[true], 5⟩).2 (by decide)⟩

/-- C3: every `Handle` invocation emits exactly one serialized outbound
response and exactly one `RespondSuccess` acknowledgment, for every pool
state, metric state, timing and response — also when the response payload
encodes an error — and `Handle` is total with no error result. -/
theorem handle_exactly_one_response (s : PoolState) (m : CQLMetrics)
    (t : HandleTimes) (response : CQLResponse) :
    (Handle s m t response).2.2.count
        (HEvent.serializeResponse response.isErrorPayload) = 1 ∧
    (Handle s m t response).2.2.count HEvent.respondSuccess = 1 := by
  constructor <;> simp [Handle, SendResponse, List.count_cons]

/-- C4: every `Handle` invocation releases the processor it acquired
exactly once, after the response has been sent: the event trace is
process, serialize, respond, release-of-the-acquired-index, and in the
final pool state that processor's busy flag is cleared, so it is idle
(acquirable) again. -/
theorem handle_releases_processor (s : PoolState) (m : CQLMetrics)
    (t : HandleTimes) (response : CQLResponse) :
    (Handle s m t response).2.2
      = [HEvent.processCall,
         HEvent.serializeResponse response.isErrorPayload,
         HEvent.respondSuccess,
         HEvent.releaseProcessor (GetProcessor s).1] ∧
    (Handle s m t response).1.processors[(GetProcessor s).1]? = some false := by
  refine ⟨rfl, ?_⟩
  have hlt : (GetProcessor s).1 < (GetProcessor s).2.processors.length :=
    getProcessor_idx_lt s
  show ((GetProcessor s).2.processors.set (GetProcessor s).1 false)[
      (GetProcessor s).1]? = some false
  simp [List.getElem?_set_self', hlt]

/-- C5: evaluation of the constructor at `cql_service_num_threads = 3`.
The constructor calls `reserve(3)` and then range-iterates over
`processors_`, but `reserve` leaves the vector's size at zero, so the
loop never runs: the constructed pool holds zero processors (capacity 3),
not the three idle processors the spec's scenario expects. -/
theorem init_pool_empty :
    (CQLServiceImpl_init 3).processors.length = 0 ∧
    (CQLServiceImpl_init 3).capacity = 3 := by decide

/-- C6 counterexample: with checkpoints start = 0, got_processor = 5,
process_done = 7, response_done = 10, the sample `Handle` appends to the
"time to process request" histogram is 10 (measured from `start`), not
the acquire-to-response duration 10 − 5 = 5 the claim states. -/
theorem time_to_process_request_counterexample :
    ¬ ((Handle ⟨[], 0⟩ ⟨[], [], []⟩ ⟨0, 5, 7, 10⟩ ⟨false⟩).2.1.time_to_process_request
        = [(10 : Nat) - 5]) := by decide

/-- C6 amended: the "time to process request" sample equals
`response_done − start` — the elapsed time from the start-of-Handle
timestamp to the response-done checkpoint (taken after the processor is
released) — and the "time to queue response" sample equals
`response_done − process_done`. -/
theorem time_to_process_request_from_start (s : PoolState) (m : CQLMetrics)
    (t : HandleTimes) (response : CQLResponse) :
    (Handle s m t response).2.1.time_to_process_request
      = m.time_to_process_request ++ [t.response_done - t.start] ∧
    (Handle s m t response).2.1.time_to_queue_cql_response
      = m.time_to_queue_cql_response ++ [t.response_done - t.process_done] :=
  ⟨rfl, rfl⟩

/-- C7: whenever `GetProcessor` must grow the pool (no processor is
idle), the resulting capacity is at least
`max (2 × old_size) (old_size + 10)` for the old processor count. -/
theorem getProcessor_growth_capacity (s : PoolState)
    (h : false ∉ s.processors) :
    max (2 * s.processors.length) (s.processors.length + 10)
      ≤ (GetProcessor s).2.capacity := by
  have hscan : scanIdle s.processors = none := (scanIdle_eq_none_iff _).mpr h
  unfold GetProcessor
  simp only [hscan]
  simp only [vreserve, vpushCap]
  omega

/-- Witness for C7: growing the all-busy single-processor pool yields
capacity 11 ≥ max 2 11. -/
theorem getProcessor_growth_capacity_witness :
    max (2 * (⟨[true], 0⟩ : PoolState).processors.length)
        ((⟨[true], 0⟩ : PoolState).processors.length + 10)
      ≤ (GetProcessor ⟨[true], 0⟩).2.capacity :=
  getProcessor_growth_capacity ⟨[true], 0⟩ (by decide)

/-- C8: the pool's processor count never decreases across any sequence of
acquire/release operations; one `GetProcessor` leaves the count unchanged
or increases it by exactly one; and M acquisitions with no releases leave
a final count of at least M. -/
theorem pool_count_monotone (s : PoolState) (cmds : List PoolCmd) (M : Nat) :
    s.processors.length ≤ (exec s cmds).processors.length ∧
    ((GetProcessor s).2.processors.length = s.processors.length ∨
      (GetProcessor s).2.processors.length = s.processors.length + 1) ∧
    M ≤ (exec s (List.replicate M PoolCmd.acquire)).processors.length := by
  refine ⟨exec_length_mono cmds s, getProcessor_length s, ?_⟩
  have h1 : busyCount (exec s (List.replicate M PoolCmd.acquire))
      = busyCount s + M := busyCount_replicate_acquire M s
  have h2 := busyCount_le_length (exec s (List.replicate M PoolCmd.acquire))
  omega

/-- C9 counterexample: not every pool-state access of `Handle` holds
`process_mutex_`: the `processor->unused()` write of the busy flag is
performed outside any lock scope. -/
theorem handle_access_not_all_locked :
    handleAccesses.all (fun a => a.holdsProcessMutex) = false := by decide

/-- C9 amended: every pool-state access inside `GetProcessor` (the scan
of the busy flags, the reserve/append growth and the `used()` write) runs
under `process_mutex_`, but the `unused()` clearing of the busy flag in
`Handle` occurs without holding the lock. -/
theorem getProcessor_lock_discipline :
    getProcessorAccesses.all (fun a => a.holdsProcessMutex) = true ∧
    PoolStateAccess.mk PoolTouch.markUnused false ∈ handleAccesses := by decide

/-- C10: when the pool contains at least one idle processor,
`GetProcessor` selects the idle processor with the highest index — the
scan does not stop at the first idle candidate, so every idle index is at
most the selected one — and marks it used. -/
theorem getProcessor_selects_last_idle (s : PoolState)
    (h : false ∈ s.processors) :
    s.processors[(GetProcessor s).1]? = some false ∧
    (∀ j, s.processors[j]? = some false → j ≤ (GetProcessor s).1) ∧
    (GetProcessor s).2.processors[(GetProcessor s).1]? = some true := by
  obtain ⟨n, hn, hval⟩ := List.getElem_of_mem h
  have hidx : s.processors[n]? = some false :=
    List.getElem?_eq_some.mpr ⟨hn, hval⟩
  obtain ⟨k, hscan⟩ := scanIdle_isSome_of_idle _ _ hidx
  obtain ⟨h1, h2⟩ := scanIdle_spec _ _ hscan
  have hfst : (GetProcessor s).1 = k := by
    unfold GetProcessor
    simp only [hscan]
  refine ⟨?_, ?_, getProcessor_busy_after s⟩
  · rw [hfst]
    exact h1
  · intro j hj
    rw [hfst]
    exact h2 j hj

/-- Witness for C10: on the pool `[false, true, false]` the selected
index is idle, index 0 (also idle) is at most the selected one, and the
selected processor is marked used. -/
theorem getProcessor_selects_last_idle_witness :
    (⟨[false, true, false], 3⟩ : PoolState).processors[
        (GetProcessor ⟨[false, true, false], 3⟩).1]? = some false ∧
    0 ≤ (GetProcessor ⟨[false, true, false], 3⟩).1 ∧
    (GetProcessor ⟨[false, true, false], 3⟩).2.processors[
        (GetProcessor ⟨[false, true, false], 3⟩).1]? = some true := by
  obtain ⟨h1, h2, h3⟩ :=
    getProcessor_selects_last_idle ⟨[false, true, false], 3⟩ (by decide)
  exact ⟨h1, h2 0 (by decide), h3⟩

end CQLService
